import Mathlib

/-!
Shallow embedding of the persistence layer of the sn0int registry
(`sn0int-registry/src/models.rs`): auth tokens, modules, releases, and
their CRUD / search operations against a relational store.

The store is modelled as explicit state (lists of rows plus serial-id
counters and a clock for `published` timestamps); each operation is a
function from the state to `Except DbError (result × state)`.
A failed operation leaves the state unchanged (its statements have no
effect), which is what `Store.after` extracts.

Parts of the repository that are not in the reviewed fragment (the SQL
schema with its unique indexes and column defaults, the error taxonomy of
`errors.rs`, and PostgreSQL full-text search) are modelled from the spec;
each such definition carries a doc comment saying so.
-/

namespace Sn0int

/-- Modelled from the spec: the error taxonomy of `errors.rs` (not part of
the fragment) — `NotFound`, `UniqueConstraintViolation`, and a generic
`StorageError` for any other storage-layer fault such as a value that
cannot be deserialized. -/
inductive DbError where
  | NotFound
  | UniqueConstraintViolation
  | StorageError
deriving DecidableEq, Repr

/-- Row of `auth_tokens(id PK, author, access_token)`. -/
structure AuthToken where
  id : String
  author : String
  access_token : String
deriving DecidableEq, Repr

/-- Row of `modules`, without the derived `search_vector` column (the code
never selects it: `ALL_MODULE_COLUMNS`). -/
structure Module where
  id : Int
  author : String
  name : String
  description : String
  latest : Option String
  featured : Bool
deriving DecidableEq, Repr

/-- Row of `releases`. `published` is modelled as a logical timestamp
(`Nat`) assigned from the store clock at insert time. -/
structure Release where
  id : Int
  module_id : Int
  version : String
  downloads : Int
  code : String
  published : Nat
deriving DecidableEq, Repr

/-- `NewModule` insert payload (`featured` is absent: the column default
applies). -/
structure NewModule where
  author : String
  name : String
  description : String
  latest : Option String
deriving DecidableEq, Repr

/-- `NewRelease` insert payload (`downloads` and `published` are absent:
the column defaults apply). -/
structure NewRelease where
  module_id : Int
  version : String
  code : String
deriving DecidableEq, Repr

/-- The relational store: one list of rows per table, serial-id counters
for the surrogate keys, and a clock for `published` timestamps. -/
structure Store where
  auth_tokens : List AuthToken
  modules : List Module
  releases : List Release
  next_module_id : Int
  next_release_id : Int
  clock : Nat
deriving DecidableEq, Repr

/-- The state after an operation: its new state on success, the old state
on failure (a failed SQL statement has no effect). -/
def Store.after {α : Type} (s : Store) (r : Except DbError (α × Store)) : Store :=
  match r with
  | .ok (_, s') => s'
  | .error _ => s

namespace AuthToken

/-- `AuthToken::create`: plain insert. Modelled from the spec: the primary
key on `auth_tokens.id` (schema, not in the fragment) makes a duplicate id
fail with `UniqueConstraintViolation`. -/
def create (auth_token : AuthToken) (s : Store) : Except DbError (Unit × Store) :=
  if s.auth_tokens.any (fun t => t.id == auth_token.id) then
    .error .UniqueConstraintViolation
  else
    .ok ((), { s with auth_tokens := s.auth_tokens ++ [auth_token] })

/-- `AuthToken::read`: `find(id).first`, absence is a `NotFound` error. -/
def read (id : String) (s : Store) : Except DbError (AuthToken × Store) :=
  match s.auth_tokens.find? (fun t => t.id == id) with
  | some t => .ok (t, s)
  | none => .error .NotFound

/-- `AuthToken::read_opt`: same lookup, absence becomes `none` via
`.optional()`. -/
def read_opt (id : String) (s : Store) : Except DbError (Option AuthToken × Store) :=
  .ok (s.auth_tokens.find? (fun t => t.id == id), s)

/-- `AuthToken::delete`: `DELETE FROM auth_tokens WHERE id = ?`; deleting
zero rows is not an error. -/
def delete (id : String) (s : Store) : Except DbError (Unit × Store) :=
  .ok ((), { s with auth_tokens := s.auth_tokens.filter (fun t => !(t.id == id)) })

end AuthToken

namespace Module

/-- `Module::create`: insert returning the persisted row. Modelled from
the spec: the unique index on `(author, name)` (schema, not in the
fragment) makes a duplicate natural key fail with
`UniqueConstraintViolation`, and the `featured` column defaults to
`false` (manually curated flag). -/
def create (module : NewModule) (s : Store) : Except DbError (Module × Store) :=
  if s.modules.any (fun m => m.author == module.author && m.name == module.name) then
    .error .UniqueConstraintViolation
  else
    let m : Module :=
      { id := s.next_module_id
        author := module.author
        name := module.name
        description := module.description
        latest := module.latest
        featured := false }
    .ok (m, { s with modules := s.modules ++ [m], next_module_id := s.next_module_id + 1 })

/-- `Module::find`: exact-match lookup by natural key, `NotFound` when
absent. -/
def find (author name : String) (s : Store) : Except DbError (Module × Store) :=
  match s.modules.find? (fun m => m.author == author && m.name == name) with
  | some m => .ok (m, s)
  | none => .error .NotFound

/-- `Module::find_opt`: same lookup, absence becomes `none`. -/
def find_opt (author name : String) (s : Store) : Except DbError (Option Module × Store) :=
  .ok (s.modules.find? (fun m => m.author == author && m.name == name), s)

/-- `Module::update_or_create`: upsert by natural key — update only the
description of the existing row (returning the refreshed row), or insert
a new row with `latest = None`. -/
def update_or_create (author name description : String) (s : Store) :
    Except DbError (Module × Store) := do
  let (found, s0) ← find_opt author name s
  match found with
  | some module =>
      .ok ({ module with description := description },
        { s0 with modules := (s0.modules.map
            (fun m => if m.id = module.id then { m with description := description } else m)) })
  | none =>
      create { author := author, name := name, description := description, latest := none } s0

/-- `Module::id`: lookup by surrogate key (named `lookup_id` because `id`
is the field projection in Lean). -/
def lookup_id (id : Int) (s : Store) : Except DbError (Module × Store) :=
  match s.modules.find? (fun m => m.id == id) with
  | some m => .ok (m, s)
  | none => .error .NotFound

/-- `Module::id_opt`. -/
def lookup_id_opt (id : Int) (s : Store) : Except DbError (Option Module × Store) :=
  .ok (s.modules.find? (fun m => m.id == id), s)

/-- `Module::delete`: `DELETE FROM modules WHERE id = ?`. Only this single
statement runs; the spec leaves any schema-level cascade policy
unspecified, so none is modelled. -/
def delete (id : Int) (s : Store) : Except DbError (Unit × Store) :=
  .ok ((), { s with modules := s.modules.filter (fun m => !(m.id == id)) })

end Module

namespace Release

/-- `Release::create`: insert with `module_id`, `version`, `code`.
Modelled from the spec: the unique index on `(module_id, version)`
(schema, not in the fragment) makes a duplicate fail with
`UniqueConstraintViolation`; `downloads` defaults to `0` and `published`
to the insertion time. -/
def create (release : NewRelease) (s : Store) : Except DbError (Release × Store) :=
  if s.releases.any (fun r => r.module_id == release.module_id && r.version == release.version) then
    .error .UniqueConstraintViolation
  else
    let r : Release :=
      { id := s.next_release_id
        module_id := release.module_id
        version := release.version
        downloads := 0
        code := release.code
        published := s.clock }
    .ok (r, { s with
        releases := s.releases ++ [r]
        next_release_id := s.next_release_id + 1
        clock := s.clock + 1 })

/-- `Release::find`: lookup by `(module_id, version)`, `NotFound` when
absent. -/
def find (module_id : Int) (version : String) (s : Store) : Except DbError (Release × Store) :=
  match s.releases.find? (fun r => r.module_id == module_id && r.version == version) with
  | some r => .ok (r, s)
  | none => .error .NotFound

/-- `Release::try_find`: same lookup, absence becomes `none`. -/
def try_find (module_id : Int) (version : String) (s : Store) :
    Except DbError (Option Release × Store) :=
  .ok (s.releases.find? (fun r => r.module_id == module_id && r.version == version), s)

/-- `Release::id` (named `lookup_id`, see `Module.lookup_id`). -/
def lookup_id (id : Int) (s : Store) : Except DbError (Release × Store) :=
  match s.releases.find? (fun r => r.id == id) with
  | some r => .ok (r, s)
  | none => .error .NotFound

/-- `Release::id_opt`. -/
def lookup_id_opt (id : Int) (s : Store) : Except DbError (Option Release × Store) :=
  .ok (s.releases.find? (fun r => r.id == id), s)

/-- `Release::delete`: `DELETE FROM releases WHERE id = ?`. -/
def delete (id : Int) (s : Store) : Except DbError (Unit × Store) :=
  .ok ((), { s with releases := s.releases.filter (fun r => !(r.id == id)) })

/-- `Release::bump_downloads`: `UPDATE releases SET downloads = downloads + 1
WHERE id = self.id` — a server-side atomic increment; updating zero rows is
not an error. -/
def bump_downloads (self : Release) (s : Store) : Except DbError (Unit × Store) :=
  .ok ((), { s with releases := (s.releases.map
      (fun r => if r.id = self.id then { r with downloads := r.downloads + 1 } else r)) })

/-- `Release::latest`: order all releases by `published` descending and
take the first, `none` when the table is empty. -/
def latest (s : Store) : Except DbError (Option Release × Store) :=
  .ok ((s.releases.mergeSort (fun r1 r2 => decide (r2.published ≤ r1.published))).head?, s)

end Release

/-- Split a character list into words at spaces, dropping empty words. -/
def splitWordsAux (acc : List Char) : List Char → List (List Char)
  | [] => if acc.isEmpty then [] else [acc.reverse]
  | c :: cs =>
      if c = ' ' then
        if acc.isEmpty then splitWordsAux [] cs
        else acc.reverse :: splitWordsAux [] cs
      else splitWordsAux (c :: acc) cs

/-- Modelled from the spec: tokenization of PostgreSQL full-text search
(`plainto_tsquery` / `to_tsvector` live in the database, not in the
fragment) — the text is lower-cased and split into words; stemming is
abstracted as lower-casing. -/
def tsTokens (text : String) : List String :=
  (splitWordsAux [] (text.toList.map Char.toLower)).map String.mk

/-- Modelled from the spec: the `search_vector` column is derived from the
module's name and description. -/
def searchVector (m : Module) : List String :=
  tsTokens (m.name ++ " " ++ m.description)

/-- Modelled from the spec: `plainto_tsquery(query).matches(search_vector)`
— every word of the query must occur in the module's search vector
("match all of these words, in any order"). -/
def tsMatches (query : String) (m : Module) : Bool :=
  (tsTokens query).all (fun t => (searchVector m).contains t)

/-- `sum(releases.downloads)` over the left-join group of one module: SQL
`sum` of an empty group is `NULL` (`none`), otherwise the sum of the
joined `downloads` values. -/
def sumDownloads (s : Store) (mid : Int) : Option Int :=
  let rs := s.releases.filter (fun r => r.module_id == mid)
  if rs.isEmpty then none
  else some (rs.foldl (fun acc r => acc + r.downloads) 0)

/-- The `ORDER BY (featured DESC, sum DESC)` comparison on the grouped
rows; under `DESC`, PostgreSQL places `NULL` sums first. -/
def rowLE (r1 r2 : Module × Option Int) : Bool :=
  if r1.1.featured = r2.1.featured then
    match r1.2, r2.2 with
    | none, _ => true
    | some _, none => false
    | some a, some b => decide (b ≤ a)
  else r1.1.featured

/-- Decoding one result row: the sum column is declared as a non-nullable
`BigInt` in the Rust query, so a `NULL` sum fails to deserialize and the
whole `load` returns a storage error. -/
def decodeRow (row : Module × Option Int) : Except DbError (Module × Int) :=
  match row.2 with
  | some d => .ok (row.1, d)
  | none => .error .StorageError

/-- `Module::search`: filter the modules by the full-text match, left-join
and group the releases to aggregate downloads, order by
`(featured DESC, sum DESC)`, and decode each row's sum as a non-nullable
integer. -/
def Module.search (query : String) (s : Store) :
    Except DbError (List (Module × Int) × Store) := do
  let rows := (s.modules.filter (tsMatches query)).map (fun m => (m, sumDownloads s m.id))
  let decoded ← (rows.mergeSort rowLE).mapM decodeRow
  .ok (decoded, s)

/-- The `ORDER BY (author ASC, name ASC)` comparison used by
`Module::quickstart`. -/
def quickLE (m1 m2 : Module) : Bool :=
  if m1.author = m2.author then decide (m1.name ≤ m2.name)
  else decide (m1.author < m2.author)

/-- `Module::quickstart`: all featured modules, ordered by author then
name. -/
def Module.quickstart (s : Store) : Except DbError (List Module × Store) :=
  .ok ((s.modules.filter (fun m => m.featured)).mergeSort quickLE, s)

/-- `Module::add_version`: (a) insert a new release for this module with
the given version and code; on success (b) update this module's `latest`
to the version. The `?` on step (a) aborts before step (b). -/
def Module.add_version (self : Module) (version code : String) (s : Store) :
    Except DbError (Unit × Store) := do
  let (_release, s1) ← Release.create
    { module_id := self.id, version := version, code := code } s
  .ok ((), { s1 with modules := (s1.modules.map
      (fun m => if m.id = self.id then { m with latest := some version } else m)) })

/-- The stored `downloads` value of the release with surrogate key `rid`
(`none` when no such row exists). -/
def getDownloads (s : Store) (rid : Int) : Option Int :=
  (s.releases.find? (fun r => r.id == rid)).map Release.downloads

/-- Every release row with id `rid` has at least `d` downloads. -/
def downloadsAtLeast (s : Store) (rid d : Int) : Prop :=
  ∀ r ∈ s.releases, r.id = rid → d ≤ r.downloads

/-- Well-formedness of the release table, maintained by the serial
surrogate key: every id is below the next serial value and ids are
distinct. -/
def Store.wf (s : Store) : Prop :=
  (∀ r ∈ s.releases, r.id < s.next_release_id) ∧ (s.releases.map Release.id).Nodup

/-- Step invariant for download monotonicity: the serial bound holds,
`rid` has already been consumed by the serial counter, and every row with
id `rid` has at least `d` downloads. -/
def ReleaseInv (rid d : Int) (s : Store) : Prop :=
  (∀ r ∈ s.releases, r.id < s.next_release_id) ∧ rid < s.next_release_id ∧
    downloadsAtLeast s rid d

/-- One call to any operation of the store layer. -/
inductive Op where
  | authCreate (t : AuthToken)
  | authRead (id : String)
  | authReadOpt (id : String)
  | authDelete (id : String)
  | moduleCreate (nm : NewModule)
  | moduleFind (author name : String)
  | moduleFindOpt (author name : String)
  | moduleUpdateOrCreate (author name description : String)
  | moduleLookupId (id : Int)
  | moduleLookupIdOpt (id : Int)
  | moduleDelete (id : Int)
  | moduleAddVersion (self : Module) (version code : String)
  | moduleSearch (query : String)
  | moduleQuickstart
  | releaseCreate (nr : NewRelease)
  | releaseFind (module_id : Int) (version : String)
  | releaseTryFind (module_id : Int) (version : String)
  | releaseLookupId (id : Int)
  | releaseLookupIdOpt (id : Int)
  | releaseDelete (id : Int)
  | releaseBump (self : Release)
  | releaseLatest

/-- The store state after one operation (a failed operation has no
effect). -/
def Op.apply (op : Op) (s : Store) : Store :=
  match op with
  | .authCreate t => s.after (AuthToken.create t s)
  | .authRead i => s.after (AuthToken.read i s)
  | .authReadOpt i => s.after (AuthToken.read_opt i s)
  | .authDelete i => s.after (AuthToken.delete i s)
  | .moduleCreate nm => s.after (Module.create nm s)
  | .moduleFind a n => s.after (Module.find a n s)
  | .moduleFindOpt a n => s.after (Module.find_opt a n s)
  | .moduleUpdateOrCreate a n d => s.after (Module.update_or_create a n d s)
  | .moduleLookupId i => s.after (Module.lookup_id i s)
  | .moduleLookupIdOpt i => s.after (Module.lookup_id_opt i s)
  | .moduleDelete i => s.after (Module.delete i s)
  | .moduleAddVersion m v c => s.after (Module.add_version m v c s)
  | .moduleSearch q => s.after (Module.search q s)
  | .moduleQuickstart => s.after (Module.quickstart s)
  | .releaseCreate nr => s.after (Release.create nr s)
  | .releaseFind mid v => s.after (Release.find mid v s)
  | .releaseTryFind mid v => s.after (Release.try_find mid v s)
  | .releaseLookupId i => s.after (Release.lookup_id i s)
  | .releaseLookupIdOpt i => s.after (Release.lookup_id_opt i s)
  | .releaseDelete i => s.after (Release.delete i s)
  | .releaseBump r => s.after (Release.bump_downloads r s)
  | .releaseLatest => s.after (Release.latest s)

/-- The store state after a sequence of operations. -/
def applyOps (ops : List Op) (s : Store) : Store :=
  ops.foldl (fun s op => op.apply s) s

end Sn0int

deriving instance DecidableEq for Except

namespace Sn0int

/-! Concrete fixtures used by the witness and counterexample theorems. -/

/-- A featured module with no releases whose text matches "tool". -/
def orphanMod : Module :=
  { id := 1, author := "alice", name := "tool", description := "a neat tool",
    latest := none, featured := true }

/-- A store in which `orphanMod` is the only module and there are no
releases. -/
def orphanStore : Store :=
  { auth_tokens := [], modules := [orphanMod], releases := [],
    next_module_id := 2, next_release_id := 1, clock := 0 }

/-- A second zero-release matching fixture (for the search claim about
ranking). -/
def orphanMod2 : Module :=
  { id := 7, author := "carol", name := "scanner", description := "port scanner",
    latest := none, featured := false }

/-- Store for the ranking counterexample: one matching module, zero
releases. -/
def orphanStore2 : Store :=
  { auth_tokens := [], modules := [orphanMod2], releases := [],
    next_module_id := 8, next_release_id := 1, clock := 0 }

/-- A module with releases, used by several witnesses. -/
def exMod : Module :=
  { id := 1, author := "alice", name := "alpha", description := "first tool",
    latest := none, featured := false }

/-- A featured module, used by the search witness. -/
def exModF : Module :=
  { id := 2, author := "bob", name := "beta tool", description := "second",
    latest := none, featured := true }

/-- A release of `exMod`. -/
def exRel : Release :=
  { id := 10, module_id := 1, version := "1.0.0", downloads := 5, code := "c",
    published := 0 }

/-- A release of `exModF`. -/
def exRelF : Release :=
  { id := 11, module_id := 2, version := "0.1.0", downloads := 9, code := "c2",
    published := 1 }

/-- A store with two modules, one release each. -/
def exStore : Store :=
  { auth_tokens := [], modules := [exMod, exModF], releases := [exRel, exRelF],
    next_module_id := 3, next_release_id := 12, clock := 2 }

end Sn0int

namespace Sn0int

/-! ### Helper lemmas -/

/-- Characterization of a successful `add_version`: the fresh release row
is appended (downloads 0, published now) and the module's `latest` is set
to the new version. -/
theorem add_version_ok (s : Store) (self : Module) (version code : String)
    (h : ∀ r ∈ s.releases, ¬(r.module_id = self.id ∧ r.version = version)) :
    Module.add_version self version code s = .ok ((),
      { s with
          releases := s.releases ++
            [{ id := s.next_release_id, module_id := self.id, version := version,
               downloads := 0, code := code, published := s.clock }]
          next_release_id := s.next_release_id + 1
          clock := s.clock + 1
          modules := (s.modules.map
            (fun m => if m.id = self.id then { m with latest := some version } else m)) }) := by
  have hany : (s.releases.any
      (fun r => r.module_id == self.id && r.version == version)) = false := by
    rw [List.any_eq_false]
    intro r hr
    simp only [Bool.and_eq_true, beq_iff_eq]
    exact h r hr
  simp [Module.add_version, Release.create, hany, bind, Except.bind]

/-! ### Claims -/

/-- C1: for a version already present for the module, `add_version` fails
with `UniqueConstraintViolation` and has no effect — the release insert
(step a) fails, so the `latest` update (step b) never runs and the
module's `latest` is unchanged. -/
theorem claim_C1 (s : Store) (self : Module) (version code : String)
    (h : ∃ r ∈ s.releases, r.module_id = self.id ∧ r.version = version) :
    Module.add_version self version code s = .error .UniqueConstraintViolation ∧
      s.after (Module.add_version self version code s) = s := by
  obtain ⟨r, hr, h1, h2⟩ := h
  have hany : (s.releases.any
      (fun r => r.module_id == self.id && r.version == version)) = true := by
    rw [List.any_eq_true]
    exact ⟨r, hr, by simp [h1, h2]⟩
  have herr : Module.add_version self version code s = .error .UniqueConstraintViolation := by
    simp [Module.add_version, Release.create, hany, bind, Except.bind]
  exact ⟨herr, by rw [herr]; rfl⟩

/-- Witness for C1: duplicate version "1.0.0" of `exMod` in `exStore`. -/
theorem claim_C1_witness :
    (∃ r ∈ exStore.releases, r.module_id = exMod.id ∧ r.version = "1.0.0") ∧
      (Module.add_version exMod "1.0.0" "x" exStore = .error .UniqueConstraintViolation ∧
        exStore.after (Module.add_version exMod "1.0.0" "x" exStore) = exStore) :=
  ⟨by decide, claim_C1 exStore exMod "1.0.0" "x" (by decide)⟩

/-- C5: a successful `add_version` with a fresh version appends exactly
one release row (the given version and code, downloads 0) and sets the
module's `latest` to that version; a second fresh version updates
`latest` again and both release rows are present. -/
theorem claim_C5 :
    (∀ (s : Store) (self : Module) (version code : String),
      (∀ r ∈ s.releases, ¬(r.module_id = self.id ∧ r.version = version)) →
      ∃ s', Module.add_version self version code s = .ok ((), s') ∧
        s'.releases = s.releases ++
          [{ id := s.next_release_id, module_id := self.id, version := version,
             downloads := 0, code := code, published := s.clock }] ∧
        (∀ m ∈ s'.modules, m.id = self.id → m.latest = some version) ∧
        (∀ m ∈ s.modules, m.id ≠ self.id → m ∈ s'.modules)) ∧
    (∀ (s : Store) (self : Module) (v1 c1 v2 c2 : String),
      (∀ r ∈ s.releases, ¬(r.module_id = self.id ∧ r.version = v1)) →
      (∀ r ∈ s.releases, ¬(r.module_id = self.id ∧ r.version = v2)) →
      v1 ≠ v2 →
      ∃ s1 s2, Module.add_version self v1 c1 s = .ok ((), s1) ∧
        Module.add_version self v2 c2 s1 = .ok ((), s2) ∧
        (∀ m ∈ s2.modules, m.id = self.id → m.latest = some v2) ∧
        (∃ r1 ∈ s2.releases, r1.module_id = self.id ∧ r1.version = v1) ∧
        (∃ r2 ∈ s2.releases, r2.module_id = self.id ∧ r2.version = v2)) := by
  constructor
  · intro s self version code h
    refine ⟨_, add_version_ok s self version code h, rfl, ?_, ?_⟩
    · intro m hm hid
      rw [List.mem_map] at hm
      obtain ⟨x, hx, rfl⟩ := hm
      by_cases hxi : x.id = self.id
      · simp [hxi]
      · simp only [if_neg hxi] at hid ⊢
        exact absurd hid hxi
    · intro m hm hne
      rw [List.mem_map]
      exact ⟨m, hm, by simp [if_neg hne]⟩
  · intro s self v1 c1 v2 c2 h1 h2 hne
    have step1 := add_version_ok s self v1 c1 h1
    set r1 : Release :=
      { id := s.next_release_id, module_id := self.id, version := v1,
        downloads := 0, code := c1, published := s.clock } with hr1
    set s1 : Store :=
      { s with
          releases := s.releases ++ [r1]
          next_release_id := s.next_release_id + 1
          clock := s.clock + 1
          modules := (s.modules.map
            (fun m => if m.id = self.id then { m with latest := some v1 } else m)) } with hs1
    have h2' : ∀ r ∈ s1.releases, ¬(r.module_id = self.id ∧ r.version = v2) := by
      intro r hr
      rw [hs1] at hr
      simp only [List.mem_append, List.mem_singleton] at hr
      rcases hr with hr | hr
      · exact h2 r hr
      · subst hr
        rintro ⟨-, hv⟩
        exact hne hv
    have step2 := add_version_ok s1 self v2 c2 h2'
    refine ⟨s1, _, step1, step2, ?_, ?_, ?_⟩
    · intro m hm hid
      simp only [List.mem_map] at hm
      obtain ⟨x, _, rfl⟩ := hm
      by_cases hxi : x.id = self.id
      · simp [hxi]
      · simp only [if_neg hxi] at hid ⊢
        exact absurd hid hxi
    · refine ⟨r1, ?_, rfl, rfl⟩
      simp [List.mem_append]
    · exact ⟨{ id := s1.next_release_id, module_id := self.id, version := v2, downloads := 0, code := c2, published := s1.clock }, by simp, rfl, rfl⟩

/-- C7: for an auth token whose id is not yet present, `create` followed
by `read` of that id returns the identical record; `delete` of an id
followed by `read` returns `NotFound`, and followed by `read_opt` returns
the absent marker rather than an error. -/
theorem claim_C7 :
    (∀ (s : Store) (tok : AuthToken), (∀ u ∈ s.auth_tokens, u.id ≠ tok.id) →
      ∃ s', AuthToken.create tok s = .ok ((), s') ∧
        AuthToken.read tok.id s' = .ok (tok, s')) ∧
    (∀ (s : Store) (i : String),
      ∃ s', AuthToken.delete i s = .ok ((), s') ∧
        AuthToken.read i s' = .error .NotFound ∧
        AuthToken.read_opt i s' = .ok (none, s')) := by
  constructor
  · intro s tok h
    have hany : (s.auth_tokens.any (fun t => t.id == tok.id)) = false := by
      rw [List.any_eq_false]
      intro t ht
      simp only [beq_iff_eq]
      exact h t ht
    have hnone : s.auth_tokens.find? (fun t => t.id == tok.id) = none := by
      rw [List.find?_eq_none]
      intro t ht
      simp only [beq_iff_eq]
      exact h t ht
    refine ⟨{ s with auth_tokens := s.auth_tokens ++ [tok] }, ?_, ?_⟩
    · simp [AuthToken.create, hany]
    · rw [AuthToken.read]
      simp [List.find?_append, hnone]
  · intro s i
    refine ⟨{ s with auth_tokens := s.auth_tokens.filter (fun t => !(t.id == i)) }, rfl, ?_, ?_⟩
    · have hnone : (s.auth_tokens.filter (fun t => !(t.id == i))).find?
          (fun t => t.id == i) = none := by
        rw [List.find?_eq_none]
        intro t ht
        rw [List.mem_filter] at ht
        simpa using ht.2
      rw [AuthToken.read]
      simp [hnone]
    · have hnone : (s.auth_tokens.filter (fun t => !(t.id == i))).find?
          (fun t => t.id == i) = none := by
        rw [List.find?_eq_none]
        intro t ht
        rw [List.mem_filter] at ht
        simpa using ht.2
      rw [AuthToken.read_opt]
      simp [hnone]

/-- Witness for C7: a fresh token id in `exStore` for the create/read
half (the delete half has no hypothesis but is instantiated too). -/
theorem claim_C7_witness :
    ((∀ u ∈ exStore.auth_tokens, u.id ≠ "t1") ∧
      (∃ s', AuthToken.create ⟨"t1", "alice", "secret"⟩ exStore = .ok ((), s') ∧
        AuthToken.read "t1" s' = .ok (⟨"t1", "alice", "secret"⟩, s'))) ∧
    (∃ s', AuthToken.delete "t2" exStore = .ok ((), s') ∧
      AuthToken.read "t2" s' = .error .NotFound ∧
      AuthToken.read_opt "t2" s' = .ok (none, s')) :=
  ⟨⟨by decide, claim_C7.1 exStore ⟨"t1", "alice", "secret"⟩ (by decide)⟩,
    claim_C7.2 exStore "t2"⟩

/-- C8: deleting a non-existent id succeeds and leaves the store
unchanged, for auth tokens, modules and releases alike; and each delete
is idempotent — deleting the same id twice ends in the same state as
deleting it once. -/
theorem claim_C8 :
    (∀ (s : Store) (i : String), (∀ t ∈ s.auth_tokens, t.id ≠ i) →
      AuthToken.delete i s = .ok ((), s)) ∧
    (∀ (s : Store) (i : Int), (∀ m ∈ s.modules, m.id ≠ i) →
      Module.delete i s = .ok ((), s)) ∧
    (∀ (s : Store) (i : Int), (∀ r ∈ s.releases, r.id ≠ i) →
      Release.delete i s = .ok ((), s)) ∧
    (∀ (s s1 : Store) (i : String), AuthToken.delete i s = .ok ((), s1) →
      AuthToken.delete i s1 = .ok ((), s1)) ∧
    (∀ (s s1 : Store) (i : Int), Module.delete i s = .ok ((), s1) →
      Module.delete i s1 = .ok ((), s1)) ∧
    (∀ (s s1 : Store) (i : Int), Release.delete i s = .ok ((), s1) →
      Release.delete i s1 = .ok ((), s1)) := by
  refine ⟨?_, ?_, ?_, ?_, ?_, ?_⟩
  · intro s i h
    have hf : s.auth_tokens.filter (fun t => !(t.id == i)) = s.auth_tokens :=
      List.filter_eq_self.mpr (fun t ht => by simpa using h t ht)
    rw [AuthToken.delete, hf]
  · intro s i h
    have hf : s.modules.filter (fun m => !(m.id == i)) = s.modules :=
      List.filter_eq_self.mpr (fun m hm => by simpa using h m hm)
    rw [Module.delete, hf]
  · intro s i h
    have hf : s.releases.filter (fun r => !(r.id == i)) = s.releases :=
      List.filter_eq_self.mpr (fun r hr => by simpa using h r hr)
    rw [Release.delete, hf]
  · intro s s1 i h
    rw [AuthToken.delete] at h
    simp only [Except.ok.injEq, Prod.mk.injEq, true_and] at h
    subst h
    rw [AuthToken.delete]
    simp [List.filter_filter]
  · intro s s1 i h
    rw [Module.delete] at h
    simp only [Except.ok.injEq, Prod.mk.injEq, true_and] at h
    subst h
    rw [Module.delete]
    simp [List.filter_filter]
  · intro s s1 i h
    rw [Release.delete] at h
    simp only [Except.ok.injEq, Prod.mk.injEq, true_and] at h
    subst h
    rw [Release.delete]
    simp [List.filter_filter]

/-- Witness for C8 at concrete absent ids in `exStore`. -/
theorem claim_C8_witness :
    ((∀ t ∈ exStore.auth_tokens, t.id ≠ "nope") ∧
      AuthToken.delete "nope" exStore = .ok ((), exStore)) ∧
    ((∀ m ∈ exStore.modules, m.id ≠ 99) ∧
      Module.delete 99 exStore = .ok ((), exStore)) ∧
    ((∀ r ∈ exStore.releases, r.id ≠ 99) ∧
      Release.delete 99 exStore = .ok ((), exStore)) ∧
    (AuthToken.delete "t9" exStore = .ok ((), exStore) ∧
      AuthToken.delete "t9" exStore = .ok ((), exStore)) ∧
    (Module.delete 99 exStore = .ok ((), exStore) ∧
      Module.delete 99 exStore = .ok ((), exStore)) ∧
    (Release.delete 99 exStore = .ok ((), exStore) ∧
      Release.delete 99 exStore = .ok ((), exStore)) :=
  ⟨⟨by decide, claim_C8.1 exStore "nope" (by decide)⟩,
    ⟨by decide, claim_C8.2.1 exStore 99 (by decide)⟩,
    ⟨by decide, claim_C8.2.2.1 exStore 99 (by decide)⟩,
    ⟨by decide, claim_C8.2.2.2.1 exStore exStore "t9" (by decide)⟩,
    ⟨by decide, claim_C8.2.2.2.2.1 exStore exStore 99 (by decide)⟩,
    ⟨by decide, claim_C8.2.2.2.2.2 exStore exStore 99 (by decide)⟩⟩

/-- C10: `Module::delete` removes only the module row; the releases table
(and the auth-token table) are untouched, so every release of the deleted
module remains in the store. -/
theorem claim_C10 (s : Store) (i : Int) :
    ∃ s', Module.delete i s = .ok ((), s') ∧
      s'.releases = s.releases ∧
      (∀ r ∈ s.releases, r.module_id = i → r ∈ s'.releases) ∧
      s'.modules = s.modules.filter (fun m => !(m.id == i)) ∧
      s'.auth_tokens = s.auth_tokens :=
  ⟨_, rfl, rfl, fun _ hr _ => hr, rfl, rfl⟩

/-- `update_or_create` unfolded through the `find_opt` bind. -/
theorem update_or_create_eq (a n d : String) (s : Store) :
    Module.update_or_create a n d s =
      match s.modules.find? (fun x => x.author == a && x.name == n) with
      | some module => .ok ({ module with description := d },
          { s with modules := (s.modules.map
              (fun m => if m.id = module.id then { m with description := d } else m)) })
      | none =>
          Module.create { author := a, name := n, description := d, latest := none } s := rfl

/-- A list with at most one element containing `x` is `[x]`. -/
theorem eq_singleton_of_mem_of_length_le_one {α : Type} {l : List α} {x : α}
    (hx : x ∈ l) (hl : l.length ≤ 1) : l = [x] := by
  match l with
  | [] => exact absurd hx (List.not_mem_nil x)
  | [y] => rw [List.mem_singleton] at hx; rw [hx]
  | y :: z :: t => simp at hl

/-- C4: `update_or_create` updates only the description of an existing
`(author, name)` row (id, author, name, latest, featured unchanged) and
returns the refreshed row; otherwise it creates a new row with `latest`
absent; calling it twice with different descriptions leaves a single row
with that key, carrying the second description and an unchanged id. -/
theorem claim_C4 :
    (∀ (s : Store) (a n d : String) (m : Module),
      s.modules.find? (fun x => x.author == a && x.name == n) = some m →
      ∃ m' s', Module.update_or_create a n d s = .ok (m', s') ∧
        m'.id = m.id ∧ m'.author = m.author ∧ m'.name = m.name ∧
        m'.latest = m.latest ∧ m'.featured = m.featured ∧ m'.description = d ∧
        m' ∈ s'.modules ∧
        (∀ x ∈ s.modules, x.id ≠ m.id → x ∈ s'.modules) ∧
        s'.releases = s.releases ∧ s'.auth_tokens = s.auth_tokens) ∧
    (∀ (s : Store) (a n d : String),
      s.modules.find? (fun x => x.author == a && x.name == n) = none →
      ∃ m' s', Module.update_or_create a n d s = .ok (m', s') ∧
        m'.author = a ∧ m'.name = n ∧ m'.description = d ∧ m'.latest = none ∧
        s'.modules = s.modules ++ [m']) ∧
    (∀ (s : Store) (a n d1 d2 : String),
      (s.modules.filter (fun x => x.author == a && x.name == n)).length ≤ 1 →
      ∃ m1 s1 m2 s2,
        Module.update_or_create a n d1 s = .ok (m1, s1) ∧
        Module.update_or_create a n d2 s1 = .ok (m2, s2) ∧
        m2.id = m1.id ∧ m2.description = d2 ∧
        s2.modules.filter (fun x => x.author == a && x.name == n) = [m2]) := by
  refine ⟨?_, ?_, ?_⟩
  · intro s a n d m hfind
    refine ⟨{ m with description := d },
      { s with modules := (s.modules.map
          (fun x => if x.id = m.id then { x with description := d } else x)) },
      by rw [update_or_create_eq, hfind], rfl, rfl, rfl,
      rfl, rfl, rfl, ?_, ?_, rfl, rfl⟩
    · rw [List.mem_map]
      exact ⟨m, List.mem_of_find?_eq_some hfind, by simp⟩
    · intro x hx hne
      rw [List.mem_map]
      exact ⟨x, hx, by simp [if_neg hne]⟩
  · intro s a n d hfind
    have hany : (s.modules.any (fun x => x.author == a && x.name == n)) = false := by
      rw [List.any_eq_false]
      exact List.find?_eq_none.mp hfind
    set newm : Module :=
      { id := s.next_module_id, author := a, name := n, description := d,
        latest := none, featured := false } with hnewm
    set s1 : Store :=
      { s with modules := s.modules ++ [newm],
               next_module_id := s.next_module_id + 1 } with hs1
    exact ⟨newm, s1, by rw [update_or_create_eq, hfind]; simp [Module.create, hany, hnewm, hs1],
      rfl, rfl, rfl, rfl, rfl⟩
  · intro s a n d1 d2 hlen
    cases hfind : s.modules.find? (fun x => x.author == a && x.name == n) with
    | none =>
      have hany : (s.modules.any (fun x => x.author == a && x.name == n)) = false := by
        rw [List.any_eq_false]
        exact List.find?_eq_none.mp hfind
      set newm : Module :=
        { id := s.next_module_id, author := a, name := n, description := d1,
          latest := none, featured := false } with hnewm
      set s1 : Store :=
        { s with modules := s.modules ++ [newm],
                 next_module_id := s.next_module_id + 1 } with hs1
      have heq1 : Module.update_or_create a n d1 s = .ok (newm, s1) := by
        rw [update_or_create_eq, hfind]
        simp [Module.create, hany, hs1, hnewm]
      have hp : (fun x : Module => x.author == a && x.name == n) newm = true := by
        simp [hnewm]
      have hfind2 : s1.modules.find? (fun x => x.author == a && x.name == n) = some newm := by
        rw [hs1]
        simp only [List.find?_append, hfind, Option.none_or]
        simp [hp]
      refine ⟨newm, s1, { newm with description := d2 }, _, heq1,
        by rw [update_or_create_eq, hfind2], rfl, rfl, ?_⟩
      have hcomp : ((fun x : Module => x.author == a && x.name == n) ∘
          (fun m => if m.id = newm.id then { m with description := d2 } else m)) =
          (fun x : Module => x.author == a && x.name == n) := by
        funext x
        by_cases hx : x.id = newm.id <;> simp [hx]
      rw [List.filter_map, hcomp, hs1]
      simp only [List.filter_append]
      rw [List.filter_eq_nil_iff.mpr (List.find?_eq_none.mp hfind)]
      simp [hp]
    | some m0 =>
      have hm0 : m0 ∈ s.modules := List.mem_of_find?_eq_some hfind
      have hp0 := List.find?_some hfind
      set m1 : Module := { m0 with description := d1 } with hm1
      set s1 : Store :=
        { s with modules := (s.modules.map
            (fun m => if m.id = m0.id then { m with description := d1 } else m)) } with hs1
      have heq1 : Module.update_or_create a n d1 s = .ok (m1, s1) := by
        rw [update_or_create_eq, hfind]
      have hcomp1 : ((fun x : Module => x.author == a && x.name == n) ∘
          (fun m => if m.id = m0.id then { m with description := d1 } else m)) =
          (fun x : Module => x.author == a && x.name == n) := by
        funext x
        by_cases hx : x.id = m0.id <;> simp [hx]
      have hfind2 : s1.modules.find? (fun x => x.author == a && x.name == n) = some m1 := by
        rw [hs1]
        simp only [List.find?_map, hcomp1, hfind, Option.map_some]
        simp [hm1]
      refine ⟨m1, s1, { m1 with description := d2 }, _, heq1,
        by rw [update_or_create_eq, hfind2], rfl, rfl, ?_⟩
      have hcomp2 : ((fun x : Module => x.author == a && x.name == n) ∘
          (fun m => if m.id = m1.id then { m with description := d2 } else m)) =
          (fun x : Module => x.author == a && x.name == n) := by
        funext x
        by_cases hx : x.id = m1.id <;> simp [hx]
      have hfil : s.modules.filter (fun x => x.author == a && x.name == n) = [m0] :=
        eq_singleton_of_mem_of_length_le_one (List.mem_filter.mpr ⟨hm0, hp0⟩) hlen
      rw [List.filter_map, hcomp2, hs1, List.filter_map, hcomp1, hfil]
      simp [hm1]

/-- Witness for C4 at `exStore`: update an existing key, create a missing
key, and run the double-upsert on a unique key. -/
theorem claim_C4_witness :
    (exStore.modules.find? (fun x => x.author == "alice" && x.name == "alpha") = some exMod ∧
      (∃ m' s', Module.update_or_create "alice" "alpha" "newd" exStore = .ok (m', s') ∧
        m'.id = exMod.id ∧ m'.author = exMod.author ∧ m'.name = exMod.name ∧
        m'.latest = exMod.latest ∧ m'.featured = exMod.featured ∧ m'.description = "newd" ∧
        m' ∈ s'.modules ∧
        (∀ x ∈ exStore.modules, x.id ≠ exMod.id → x ∈ s'.modules) ∧
        s'.releases = exStore.releases ∧ s'.auth_tokens = exStore.auth_tokens)) ∧
    (exStore.modules.find? (fun x => x.author == "carol" && x.name == "gamma") = none ∧
      (∃ m' s', Module.update_or_create "carol" "gamma" "d" exStore = .ok (m', s') ∧
        m'.author = "carol" ∧ m'.name = "gamma" ∧ m'.description = "d" ∧ m'.latest = none ∧
        s'.modules = exStore.modules ++ [m'])) ∧
    ((exStore.modules.filter (fun x => x.author == "alice" && x.name == "alpha")).length ≤ 1 ∧
      (∃ m1 s1 m2 s2,
        Module.update_or_create "alice" "alpha" "d1" exStore = .ok (m1, s1) ∧
        Module.update_or_create "alice" "alpha" "d2" s1 = .ok (m2, s2) ∧
        m2.id = m1.id ∧ m2.description = "d2" ∧
        s2.modules.filter (fun x => x.author == "alice" && x.name == "alpha") = [m2])) :=
  ⟨⟨by decide, claim_C4.1 exStore "alice" "alpha" "newd" exMod (by decide)⟩,
    ⟨by decide, claim_C4.2.1 exStore "carol" "gamma" "d" (by decide)⟩,
    ⟨by decide, claim_C4.2.2 exStore "alice" "alpha" "d1" "d2" (by decide)⟩⟩

/-- The quickstart comparison is transitive. -/
theorem quickLE_trans (a b c : Module) (hab : quickLE a b = true) (hbc : quickLE b c = true) :
    quickLE a c = true := by
  unfold quickLE at hab hbc ⊢
  by_cases h1 : a.author = b.author <;> by_cases h2 : b.author = c.author
  · rw [if_pos h1, decide_eq_true_eq] at hab
    rw [if_pos h2, decide_eq_true_eq] at hbc
    rw [if_pos (h1.trans h2), decide_eq_true_eq]
    exact le_trans hab hbc
  · rw [if_neg h2, decide_eq_true_eq] at hbc
    have hac : a.author < c.author := h1 ▸ hbc
    rw [if_neg (ne_of_lt hac), decide_eq_true_eq]
    exact hac
  · rw [if_neg h1, decide_eq_true_eq] at hab
    have hac : a.author < c.author := h2 ▸ hab
    rw [if_neg (ne_of_lt hac), decide_eq_true_eq]
    exact hac
  · rw [if_neg h1, decide_eq_true_eq] at hab
    rw [if_neg h2, decide_eq_true_eq] at hbc
    have hac : a.author < c.author := lt_trans hab hbc
    rw [if_neg (ne_of_lt hac), decide_eq_true_eq]
    exact hac

/-- The quickstart comparison is total. -/
theorem quickLE_total (a b : Module) : (quickLE a b || quickLE b a) = true := by
  rw [Bool.or_eq_true]
  unfold quickLE
  by_cases h : a.author = b.author
  · rw [if_pos h, if_pos h.symm]
    simp only [decide_eq_true_eq]
    exact le_total a.name b.name
  · rw [if_neg h, if_neg (Ne.symm h)]
    simp only [decide_eq_true_eq]
    exact lt_or_gt_of_ne h

/-- C9: `quickstart` returns exactly the featured modules, sorted by
author ascending then name ascending, independent of download counts. -/
theorem claim_C9 (s : Store) :
    ∃ l, Module.quickstart s = .ok (l, s) ∧
      l.Perm (s.modules.filter (fun m => m.featured)) ∧
      (∀ m ∈ l, m.featured = true) ∧
      l.Pairwise (fun m1 m2 => m1.author < m2.author ∨
        (m1.author = m2.author ∧ m1.name ≤ m2.name)) := by
  refine ⟨_, rfl, List.mergeSort_perm _ _, ?_, ?_⟩
  · intro m hm
    have hm' := (List.mergeSort_perm
      (s.modules.filter (fun m => m.featured)) quickLE).mem_iff.mp hm
    exact (List.mem_filter.mp hm').2
  · refine (@List.sorted_mergeSort Module quickLE quickLE_trans quickLE_total
      (s.modules.filter (fun m => m.featured))).imp ?_
    intro a b hab
    unfold quickLE at hab
    by_cases h : a.author = b.author
    · rw [if_pos h, decide_eq_true_eq] at hab
      exact Or.inr ⟨h, hab⟩
    · rw [if_neg h, decide_eq_true_eq] at hab
      exact Or.inl hab

/-- The search ordering comparison is transitive. -/
theorem rowLE_trans : ∀ (a b c : Module × Option Int),
    rowLE a b = true → rowLE b c = true → rowLE a c = true := by
  rintro ⟨ma, oa⟩ ⟨mb, ob⟩ ⟨mc, oc⟩ hab hbc
  unfold rowLE at hab hbc ⊢
  by_cases h1 : ma.featured = mb.featured <;> by_cases h2 : mb.featured = mc.featured
  · rw [if_pos h1] at hab
    rw [if_pos h2] at hbc
    rw [if_pos (h1.trans h2)]
    cases oa with
    | none => rfl
    | some x =>
      cases ob with
      | none => simp at hab
      | some y =>
        cases oc with
        | none => simp at hbc
        | some z =>
          simp only [decide_eq_true_eq] at hab hbc ⊢
          exact le_trans hbc hab
  · rw [if_neg h2] at hbc
    rw [if_neg (fun hh => h2 (h1 ▸ hh))]
    rw [h1]
    exact hbc
  · rw [if_neg h1] at hab
    rw [if_neg (fun hh => h1 (hh.trans h2.symm))]
    exact hab
  · rw [if_neg h1] at hab
    rw [if_neg h2] at hbc
    exact absurd (hab.trans hbc.symm) h1
  
/-- The search ordering comparison is total. -/
theorem rowLE_total : ∀ (a b : Module × Option Int), (rowLE a b || rowLE b a) = true := by
  rintro ⟨ma, oa⟩ ⟨mb, ob⟩
  rw [Bool.or_eq_true]
  unfold rowLE
  by_cases h : ma.featured = mb.featured
  · rw [if_pos h, if_pos h.symm]
    cases oa with
    | none => exact Or.inl rfl
    | some x =>
      cases ob with
      | none => exact Or.inr rfl
      | some y =>
        simp only [decide_eq_true_eq]
        exact (le_total y x).imp id id
  · rw [if_neg h, if_neg (Ne.symm h)]
    cases hma : ma.featured
    · cases hmb : mb.featured
      · exact absurd (hma.trans hmb.symm) h
      · exact Or.inr rfl
    · exact Or.inl rfl

/-- Decoding a row list whose sums are all present succeeds and strips
the `Option`. -/
theorem mapM_decodeRow_all_some : ∀ (l : List (Module × Option Int)),
    (∀ p ∈ l, p.2.isSome = true) →
    l.mapM decodeRow = .ok (l.map (fun p => (p.1, p.2.getD 0))) := by
  intro l h
  induction l with
  | nil => rfl
  | cons p rest ih =>
    obtain ⟨m, o⟩ := p
    have ho := h (m, o) (List.mem_cons_self _ _)
    cases o with
    | none => simp at ho
    | some d =>
      rw [List.mapM_cons, ih (fun q hq => h q (List.mem_cons_of_mem _ hq))]
      rfl

/-- C3 (amended): provided every matching module has at least one release
(otherwise the query fails, see the ranking counterexample), `search`
returns exactly the modules whose search vector matches the query, each
paired with its aggregate download count, ordered with featured modules
before non-featured ones and, within a tier, higher download totals
first. -/
theorem claim_C3 (query : String) (s : Store)
    (h : ∀ m ∈ s.modules, tsMatches query m = true → ∃ r ∈ s.releases, r.module_id = m.id) :
    ∃ l, Module.search query s = .ok (l, s) ∧
      (l.map Prod.fst).Perm (s.modules.filter (tsMatches query)) ∧
      (∀ p ∈ l, sumDownloads s p.1.id = some p.2) ∧
      l.Pairwise (fun p q => (q.1.featured = true → p.1.featured = true) ∧
        (p.1.featured = q.1.featured → q.2 ≤ p.2)) := by
  set rows : List (Module × Option Int) :=
    (s.modules.filter (tsMatches query)).map (fun m => (m, sumDownloads s m.id)) with hrows
  have hsome : ∀ p ∈ rows, p.2.isSome = true := by
    intro p hp
    rw [hrows, List.mem_map] at hp
    obtain ⟨m, hm, rfl⟩ := hp
    rw [List.mem_filter] at hm
    obtain ⟨r, hr, hrid⟩ := h m hm.1 hm.2
    have hmem : r ∈ s.releases.filter (fun x => x.module_id == m.id) :=
      List.mem_filter.mpr ⟨hr, by simp [hrid]⟩
    have hne : ¬((s.releases.filter (fun x => x.module_id == m.id)).isEmpty = true) := by
      rw [List.isEmpty_iff]
      intro hnil
      rw [hnil] at hmem
      exact absurd hmem (List.not_mem_nil r)
    simp only [sumDownloads, if_neg hne, Option.isSome_some]
  set sorted : List (Module × Option Int) := rows.mergeSort rowLE with hsorted
  have hperm : sorted.Perm rows := List.mergeSort_perm rows rowLE
  have hsome' : ∀ p ∈ sorted, p.2.isSome = true := fun p hp => hsome p (hperm.mem_iff.mp hp)
  have hdec := mapM_decodeRow_all_some sorted hsome'
  refine ⟨sorted.map (fun p => (p.1, p.2.getD 0)), ?_, ?_, ?_, ?_⟩
  · have hs1 : Module.search query s =
        (sorted.mapM decodeRow) >>= (fun decoded => .ok (decoded, s)) := rfl
    rw [hs1, hdec]
    rfl
  · have hmm : (sorted.map (fun p : Module × Option Int => (p.1, p.2.getD 0))).map Prod.fst =
        sorted.map Prod.fst := by
      rw [List.map_map]
      rfl
    rw [hmm]
    have h2 : (sorted.map Prod.fst).Perm (rows.map Prod.fst) := hperm.map Prod.fst
    have h3 : rows.map Prod.fst = s.modules.filter (tsMatches query) := by
      rw [hrows, List.map_map]
      exact List.map_id' _
    rw [h3] at h2
    exact h2
  · intro p hp
    rw [List.mem_map] at hp
    obtain ⟨q, hq, rfl⟩ := hp
    have hqs := hsome' q hq
    have hqr : q ∈ rows := hperm.mem_iff.mp hq
    rw [hrows, List.mem_map] at hqr
    obtain ⟨m, _, rfl⟩ := hqr
    obtain ⟨v, hv⟩ := Option.isSome_iff_exists.mp hqs
    simp only at hv ⊢
    rw [hv, Option.getD_some]
  · have hpair := @List.sorted_mergeSort _ rowLE rowLE_trans
      (fun a b => rowLE_total a b) rows
    rw [List.pairwise_map]
    refine List.Pairwise.imp_of_mem ?_ hpair
    intro a b ha hb hab
    obtain ⟨x, hx⟩ := Option.isSome_iff_exists.mp (hsome' a ha)
    obtain ⟨y, hy⟩ := Option.isSome_iff_exists.mp (hsome' b hb)
    constructor
    · intro hbf
      unfold rowLE at hab
      by_cases hf : a.1.featured = b.1.featured
      · rw [hf]
        exact hbf
      · rw [if_neg hf] at hab
        exact hab
    · intro hf
      unfold rowLE at hab
      rw [if_pos hf, hx, hy] at hab
      simp only [decide_eq_true_eq] at hab
      simp only [hx, hy, Option.getD_some]
      exact hab

/-- C2 (code evaluated at the failing input): `orphanMod` matches the
query and has zero releases, yet `search` fails with a storage error
instead of returning the module with a download total of zero — the
left join produces a `NULL` aggregate that the non-nullable `BigInt`
column cannot decode. -/
theorem claim_C2_bug :
    tsMatches "tool" orphanMod = true ∧ orphanMod ∈ orphanStore.modules ∧
    orphanStore.releases.filter (fun r => r.module_id == orphanMod.id) = [] ∧
    Module.search "tool" orphanStore = .error .StorageError := by
  refine ⟨by decide, by decide, by decide, ?_⟩
  have hrows : ((orphanStore.modules.filter (tsMatches "tool")).map
      (fun m => (m, sumDownloads orphanStore m.id))) = [(orphanMod, none)] := by decide
  have hs1 : Module.search "tool" orphanStore =
      ((((orphanStore.modules.filter (tsMatches "tool")).map
        (fun m => (m, sumDownloads orphanStore m.id))).mergeSort rowLE).mapM decodeRow) >>=
        (fun decoded => .ok (decoded, orphanStore)) := rfl
  rw [hs1, hrows, List.mergeSort_singleton]
  rfl

/-- C3 counterexample: with a matching module that has zero releases,
`search` does not return the matching modules at all (it fails), so the
claim as stated is false for that store. -/
theorem claim_C3_cex :
    ¬ (∃ l, Module.search "scanner" orphanStore2 = .ok (l, orphanStore2) ∧
        (l.map Prod.fst).Perm (orphanStore2.modules.filter (tsMatches "scanner"))) := by
  rintro ⟨l, hl, -⟩
  have herr : Module.search "scanner" orphanStore2 = .error .StorageError := by
    have hrows : ((orphanStore2.modules.filter (tsMatches "scanner")).map
        (fun m => (m, sumDownloads orphanStore2 m.id))) = [(orphanMod2, none)] := by decide
    have hs1 : Module.search "scanner" orphanStore2 =
        ((((orphanStore2.modules.filter (tsMatches "scanner")).map
          (fun m => (m, sumDownloads orphanStore2 m.id))).mergeSort rowLE).mapM decodeRow) >>=
          (fun decoded => .ok (decoded, orphanStore2)) := rfl
    rw [hs1, hrows, List.mergeSort_singleton]
    rfl
  rw [herr] at hl
  exact Except.noConfusion hl

/-- Witness for C3 at `exStore` (every matching module has a release). -/
theorem claim_C3_witness :
    (∀ m ∈ exStore.modules, tsMatches "tool" m = true →
      ∃ r ∈ exStore.releases, r.module_id = m.id) ∧
    (∃ l, Module.search "tool" exStore = .ok (l, exStore) ∧
      (l.map Prod.fst).Perm (exStore.modules.filter (tsMatches "tool")) ∧
      (∀ p ∈ l, sumDownloads exStore p.1.id = some p.2) ∧
      l.Pairwise (fun p q => (q.1.featured = true → p.1.featured = true) ∧
        (p.1.featured = q.1.featured → q.2 ≤ p.2))) :=
  ⟨by decide, claim_C3 "tool" exStore (by decide)⟩

/-- `ReleaseInv` only depends on the release table and the serial
counter. -/
theorem relInv_same {rid d : Int} {s : Store} (h : ReleaseInv rid d s) (s' : Store)
    (hrel : s'.releases = s.releases) (hnext : s'.next_release_id = s.next_release_id) :
    ReleaseInv rid d s' := by
  simp only [ReleaseInv, downloadsAtLeast] at h ⊢
  rw [hrel, hnext]
  exact h

/-- `ReleaseInv` is preserved by inserting a fresh serial-id row. -/
theorem relInv_append {rid d : Int} {s : Store} (h : ReleaseInv rid d s) (s' : Store)
    (nr : Release) (hrel : s'.releases = s.releases ++ [nr])
    (hid : nr.id = s.next_release_id)
    (hnext : s'.next_release_id = s.next_release_id + 1) :
    ReleaseInv rid d s' := by
  obtain ⟨hb, hlt, hdl⟩ := h
  refine ⟨?_, ?_, ?_⟩
  · intro r hr
    rw [hrel, List.mem_append, List.mem_singleton] at hr
    rw [hnext]
    rcases hr with hr | hr
    · exact lt_trans (hb r hr) (lt_add_one _)
    · rw [hr, hid]
      exact lt_add_one _
  · rw [hnext]
    exact lt_trans hlt (lt_add_one _)
  · intro r hr hrid
    rw [hrel, List.mem_append, List.mem_singleton] at hr
    rcases hr with hr | hr
    · exact hdl r hr hrid
    · have heq : rid = s.next_release_id := by rw [← hrid, hr, hid]
      rw [heq] at hlt
      exact absurd hlt (lt_irrefl _)

/-- `ReleaseInv` is preserved by deleting rows. -/
theorem relInv_filterRel {rid d : Int} {s : Store} (h : ReleaseInv rid d s) (s' : Store)
    (p : Release → Bool) (hrel : s'.releases = s.releases.filter p)
    (hnext : s'.next_release_id = s.next_release_id) :
    ReleaseInv rid d s' := by
  obtain ⟨hb, hlt, hdl⟩ := h
  refine ⟨?_, by rw [hnext]; exact hlt, ?_⟩
  · intro r hr
    rw [hrel] at hr
    rw [hnext]
    exact hb r (List.mem_filter.mp hr).1
  · intro r hr hrid
    rw [hrel] at hr
    exact hdl r (List.mem_filter.mp hr).1 hrid

/-- `ReleaseInv` is preserved by an id-preserving, downloads-nondecreasing
row update. -/
theorem relInv_bumpMap {rid d : Int} {s : Store} (h : ReleaseInv rid d s) (s' : Store)
    (f : Release → Release) (hrel : s'.releases = s.releases.map f)
    (hf : ∀ r, (f r).id = r.id ∧ r.downloads ≤ (f r).downloads)
    (hnext : s'.next_release_id = s.next_release_id) :
    ReleaseInv rid d s' := by
  obtain ⟨hb, hlt, hdl⟩ := h
  refine ⟨?_, by rw [hnext]; exact hlt, ?_⟩
  · intro r hr
    rw [hrel, List.mem_map] at hr
    obtain ⟨x, hx, rfl⟩ := hr
    rw [hnext, (hf x).1]
    exact hb x hx
  · intro r hr hrid
    rw [hrel, List.mem_map] at hr
    obtain ⟨x, hx, rfl⟩ := hr
    rw [(hf x).1] at hrid
    exact le_trans (hdl x hx hrid) (hf x).2

/-- Every single store operation preserves `ReleaseInv`. -/
theorem relInv_step (rid d : Int) (op : Op) (s : Store) (h : ReleaseInv rid d s) :
    ReleaseInv rid d (op.apply s) := by
  cases op with
  | authCreate t =>
    simp only [Op.apply]
    rw [AuthToken.create]
    split
    · exact h
    · exact relInv_same h _ rfl rfl
  | authRead i =>
    simp only [Op.apply]
    rw [AuthToken.read]
    cases s.auth_tokens.find? (fun t => t.id == i)
    · exact h
    · exact h
  | authReadOpt i => exact h
  | authDelete i => exact relInv_same h _ rfl rfl
  | moduleCreate nm =>
    simp only [Op.apply]
    rw [Module.create]
    split
    · exact h
    · exact relInv_same h _ rfl rfl
  | moduleFind a n =>
    simp only [Op.apply]
    rw [Module.find]
    cases s.modules.find? (fun m => m.author == a && m.name == n)
    · exact h
    · exact h
  | moduleFindOpt a n => exact h
  | moduleUpdateOrCreate a n dd =>
    simp only [Op.apply]
    rw [update_or_create_eq]
    cases s.modules.find? (fun x => x.author == a && x.name == n) with
    | none =>
      rw [Module.create]
      by_cases hc : (s.modules.any (fun m => m.author == a && m.name == n)) = true
      · rw [if_pos hc]
        exact h
      · rw [if_neg hc]
        exact relInv_same h _ rfl rfl
    | some m0 => exact relInv_same h _ rfl rfl
  | moduleLookupId i =>
    simp only [Op.apply]
    rw [Module.lookup_id]
    cases s.modules.find? (fun m => m.id == i)
    · exact h
    · exact h
  | moduleLookupIdOpt i => exact h
  | moduleDelete i => exact relInv_same h _ rfl rfl
  | moduleAddVersion m v c =>
    simp only [Op.apply]
    unfold Module.add_version
    rw [Release.create]
    split
    · exact h
    · exact relInv_append h _ _ rfl rfl rfl
  | moduleSearch q =>
    simp only [Op.apply, Module.search]
    cases ((((s.modules.filter (tsMatches q)).map
        (fun m => (m, sumDownloads s m.id))).mergeSort rowLE).mapM decodeRow)
    · exact h
    · exact h
  | moduleQuickstart => exact h
  | releaseCreate nr =>
    simp only [Op.apply]
    rw [Release.create]
    split
    · exact h
    · exact relInv_append h _ _ rfl rfl rfl
  | releaseFind mid v =>
    simp only [Op.apply]
    rw [Release.find]
    cases s.releases.find? (fun r => r.module_id == mid && r.version == v)
    · exact h
    · exact h
  | releaseTryFind mid v => exact h
  | releaseLookupId i =>
    simp only [Op.apply]
    rw [Release.lookup_id]
    cases s.releases.find? (fun r => r.id == i)
    · exact h
    · exact h
  | releaseLookupIdOpt i => exact h
  | releaseDelete i => exact relInv_filterRel h _ _ rfl rfl
  | releaseBump r =>
    refine relInv_bumpMap h _ _ rfl ?_ rfl
    intro x
    by_cases hx : x.id = r.id
    · simp [hx]
    · simp [hx]
  | releaseLatest => exact h

/-- `ReleaseInv` is preserved by any sequence of store operations. -/
theorem relInv_applyOps (rid d : Int) (ops : List Op) (s : Store)
    (h : ReleaseInv rid d s) : ReleaseInv rid d (applyOps ops s) := by
  induction ops generalizing s with
  | nil => exact h
  | cons op rest ih => exact ih (op.apply s) (relInv_step rid d op s h)

/-- In a well-formed store, a stored downloads value starts the
invariant. -/
theorem relInv_start {s : Store} {rid d : Int} (hwf : Store.wf s)
    (hd : getDownloads s rid = some d) : ReleaseInv rid d s := by
  obtain ⟨hb, hnd⟩ := hwf
  rw [getDownloads, Option.map_eq_some'] at hd
  obtain ⟨r0, hr0, hr0d⟩ := hd
  have hr0m : r0 ∈ s.releases := List.mem_of_find?_eq_some hr0
  have hr0id : r0.id = rid := by
    have := List.find?_some hr0
    simpa using this
  refine ⟨hb, hr0id ▸ hb r0 hr0m, ?_⟩
  intro r hr hrid
  have : r = r0 := List.inj_on_of_nodup_map hnd hr hr0m (by rw [hrid, hr0id])
  rw [this, hr0d]

/-- The invariant bounds any later stored downloads value. -/
theorem relInv_end {s : Store} {rid d x : Int} (h : ReleaseInv rid d s)
    (hx : getDownloads s rid = some x) : d ≤ x := by
  rw [getDownloads, Option.map_eq_some'] at hx
  obtain ⟨r0, hr0, hr0d⟩ := hx
  have hr0id : r0.id = rid := by
    have := List.find?_some hr0
    simpa using this
  rw [← hr0d]
  exact h.2.2 r0 (List.mem_of_find?_eq_some hr0) hr0id

/-- C6: `bump_downloads` increments the stored downloads of the release
by exactly one, and across any sequence of store operations from a
well-formed store an existing release's downloads counter never
decreases. -/
theorem claim_C6 :
    (∀ (s : Store) (self : Release) (d : Int),
      getDownloads s self.id = some d →
      ∃ s', Release.bump_downloads self s = .ok ((), s') ∧
        getDownloads s' self.id = some (d + 1)) ∧
    (∀ (ops : List Op) (s : Store) (rid d x : Int),
      Store.wf s → getDownloads s rid = some d →
      getDownloads (applyOps ops s) rid = some x → d ≤ x) := by
  constructor
  · intro s self d hd
    refine ⟨_, rfl, ?_⟩
    rw [getDownloads, Option.map_eq_some'] at hd
    obtain ⟨r0, hr0, hr0d⟩ := hd
    have hr0id : r0.id = self.id := by
      have := List.find?_some hr0
      simpa using this
    have hcomp : ((fun r : Release => r.id == self.id) ∘
        (fun r => if r.id = self.id then { r with downloads := r.downloads + 1 } else r)) =
        (fun r : Release => r.id == self.id) := by
      funext r
      by_cases hx : r.id = self.id <;> simp [hx]
    subst hr0d
    rw [getDownloads]
    simp only [List.find?_map, hcomp, hr0]
    simp [hr0id]
  · intro ops s rid d x hwf hd hx
    exact relInv_end (relInv_applyOps rid d ops s (relInv_start hwf hd)) hx

/-- Witness for C6: bump a concrete release and run a concrete operation
sequence. -/
theorem claim_C6_witness :
    (getDownloads exStore exRel.id = some 5 ∧
      (∃ s', Release.bump_downloads exRel exStore = .ok ((), s') ∧
        getDownloads s' exRel.id = some (5 + 1))) ∧
    (Store.wf exStore ∧ getDownloads exStore 10 = some 5 ∧
      getDownloads (applyOps [Op.releaseBump exRel, Op.releaseDelete 11] exStore) 10 = some 6 ∧
      (5 : Int) ≤ 6) :=
  ⟨⟨by decide, (claim_C6.1 exStore exRel 5 (by decide))⟩,
    ⟨⟨by decide, by decide⟩, by decide, by decide,
      claim_C6.2 [Op.releaseBump exRel, Op.releaseDelete 11] exStore 10 5 6
        ⟨by decide, by decide⟩ (by decide) (by decide)⟩⟩

/-- Witness for C5: fresh versions "2.0.0" then "2.0.1" of `exMod` in
`exStore`. -/
theorem claim_C5_witness :
    ((∀ r ∈ exStore.releases, ¬(r.module_id = exMod.id ∧ r.version = "2.0.0")) ∧
      (∃ s', Module.add_version exMod "2.0.0" "x" exStore = .ok ((), s') ∧
        s'.releases = exStore.releases ++
          [{ id := exStore.next_release_id, module_id := exMod.id, version := "2.0.0",
             downloads := 0, code := "x", published := exStore.clock }] ∧
        (∀ m ∈ s'.modules, m.id = exMod.id → m.latest = some "2.0.0") ∧
        (∀ m ∈ exStore.modules, m.id ≠ exMod.id → m ∈ s'.modules))) ∧
    ((∀ r ∈ exStore.releases, ¬(r.module_id = exMod.id ∧ r.version = "2.0.0")) ∧
      (∀ r ∈ exStore.releases, ¬(r.module_id = exMod.id ∧ r.version = "2.0.1")) ∧
      ("2.0.0" : String) ≠ "2.0.1" ∧
      (∃ s1 s2, Module.add_version exMod "2.0.0" "x" exStore = .ok ((), s1) ∧
        Module.add_version exMod "2.0.1" "y" s1 = .ok ((), s2) ∧
        (∀ m ∈ s2.modules, m.id = exMod.id → m.latest = some "2.0.1") ∧
        (∃ r1 ∈ s2.releases, r1.module_id = exMod.id ∧ r1.version = "2.0.0") ∧
        (∃ r2 ∈ s2.releases, r2.module_id = exMod.id ∧ r2.version = "2.0.1"))) :=
  ⟨⟨by decide, claim_C5.1 exStore exMod "2.0.0" "x" (by decide)⟩,
    ⟨by decide, by decide, by decide,
      claim_C5.2 exStore exMod "2.0.0" "x" "2.0.1" "y" (by decide) (by decide) (by decide)⟩⟩
